import Mathlib

/-!
Verification of the NotebookLLM retrieval-augmented-generation core.

The definitions below are a shallow embedding of the Python source:
  app/services/ingestion/chunker.py      (chunk_text)
  app/services/ingestion/embedder.py     (embed_texts)
  app/services/ingestion/pipeline.py     (ingest_file)
  app/services/retrieval/vector_search.py (vector_search, build_context)
  app/services/storage/notebook_store.py (get_chroma_collection)
  app/services/llm/summary_service.py    (generate_summary)
  app/db/crud.py                         (create_chunks)
  app/db/session.py                      (get_db commit/rollback discipline)

Machine strings are Lean `String`s, Python lists are Lean `List`s, word
counts and indices are `Nat`, embedding-vector components are `Rat`
(only their ordering matters here), and fallible external calls are
`Except String` oracles passed in explicitly.
-/

namespace NB

/-- Decidable equality of `Except` results, so that runs of the embedded
pipeline can be compared on concrete inputs. -/
instance {ε α : Type} [DecidableEq ε] [DecidableEq α] : DecidableEq (Except ε α) := fun a b =>
  match a, b with
  | .error e1, .error e2 =>
    if h : e1 = e2 then isTrue (by rw [h]) else isFalse (fun hh => h (Except.error.inj hh))
  | .error _, .ok _ => isFalse (fun hh => Except.noConfusion hh)
  | .ok _, .error _ => isFalse (fun hh => Except.noConfusion hh)
  | .ok a1, .ok a2 =>
    if h : a1 = a2 then isTrue (by rw [h]) else isFalse (fun hh => h (Except.ok.inj hh))

/-- Draft chunk as produced by `chunk_text` in chunker.py:
the dict treats content, chunk_index, word_start, word_end. -/
structure ChunkDraft where
  content : String
  chunk_index : Nat
  word_start : Nat
  word_end : Nat
deriving DecidableEq, Repr

/-- Accumulator pass of Python `str.split()`: cut a character list at runs
of whitespace, dropping empty pieces.  `acc` holds the characters of the
word being read, in reverse order. -/
def splitWordsAux : List Char → List Char → List String
  | [], [] => []
  | [], acc => [String.mk acc.reverse]
  | c :: cs, acc =>
    if c.isWhitespace then
      match acc with
      | [] => splitWordsAux cs []
      | _ :: _ => String.mk acc.reverse :: splitWordsAux cs []
    else splitWordsAux cs (c :: acc)

/-- Python `text.split()`: whitespace-delimited words of a string. -/
def wordsOf (s : String) : List String := splitWordsAux s.data []

/-- The window step of the chunker: `step = max(1, chunk_size - overlap)`. -/
def chunkStep (csize ov : Nat) : Nat := max 1 (csize - ov)

/-- Loop body of `chunk_text`: `for chunk_index, start in
enumerate(range(0, len(words), step))`; each window is
`words[start:end]` with `end = min(start + chunk_size, len(words))`, and
the loop breaks right after a window whose `end` reaches `len(words)`.
The first argument is an iteration budget consumed once per loop
iteration; the `range` start advances by `step ≥ 1` each iteration, so
`len(words)` iterations always suffice (`chunkAux_fuel_free` below shows
the budget is irrelevant once it is at least `ws.length - start`). -/
def chunkAux (ws : List String) (csize ov : Nat) : Nat → Nat → Nat → List ChunkDraft
  | 0, _, _ => []
  | fuel + 1, start, idx =>
    if start < ws.length then
      if min (start + csize) ws.length = ws.length then
        [⟨String.intercalate (" ") ((ws.drop start).take (min (start + csize) ws.length - start)),
          idx, start, min (start + csize) ws.length⟩]
      else
        ⟨String.intercalate (" ") ((ws.drop start).take (min (start + csize) ws.length - start)),
          idx, start, min (start + csize) ws.length⟩ ::
          chunkAux ws csize ov fuel (start + chunkStep csize ov) (idx + 1)
    else []

/-- chunker.py `chunk_text`: split text into overlapping word-based chunks;
empty word list short-circuits to the empty chunk list. -/
def chunk_text (text : String) (chunk_size : Nat := 512) (overlap : Nat := 64) :
    List ChunkDraft :=
  if (wordsOf text).isEmpty then []
  else chunkAux (wordsOf text) chunk_size overlap (wordsOf text).length 0 0

/-- Reference text of the end-to-end scenario: 1200 whitespace-delimited
one-letter words. -/
def refChars : Nat → List Char
  | 0 => []
  | 1 => ['w']
  | n + 2 => 'w' :: ' ' :: refChars (n + 1)

/-- A text with exactly 1200 whitespace-delimited words. -/
def refText1200 : String := String.mk (refChars 1200)

/-- The words of the word range `[word_start, word_end)` of a chunk,
inside the word sequence `ws` of the chunked text. -/
def rangeWords (ws : List String) (c : ChunkDraft) : List String :=
  (ws.drop c.word_start).take (c.word_end - c.word_start)

/-- The last `n` elements of a list. -/
def lastWords (n : Nat) (l : List String) : List String := l.drop (l.length - n)

/-! ### Embedder (embedder.py `embed_texts`) -/

/-- Loop of `embed_texts`: `for i in range(0, len(texts), batch_size)`
with `batch_size = 100`, sending `texts[i : i + 100]` per call and
extending the result list in order.  The first argument is an iteration
budget consumed once per loop iteration; the loop advances by 100 ≥ 1
texts per iteration, so `len(texts)` iterations always suffice. -/
def toBatchesAux : Nat → List String → List (List String)
  | 0, _ => []
  | _, [] => []
  | fuel + 1, x :: xs => ((x :: xs).take 100) :: toBatchesAux fuel ((x :: xs).drop 100)

/-- The successive batches of at most 100 texts that `embed_texts` sends
to the external embedding capability. -/
def toBatches100 (l : List String) : List (List String) := toBatchesAux l.length l

/-- embedder.py `embed_texts`: empty input returns `[]` immediately;
otherwise the per-batch results of the external call `api` are
concatenated in input order.  `api` stands for
`genai.embed_content(model=…, content=batch, task_type="retrieval_document")`. -/
def embed_texts {V : Type} (api : List String → List V) (texts : List String) : List V :=
  if texts.isEmpty then [] else ((toBatches100 texts).map api).flatten

/-- The batch arguments `embed_texts` passes to the external embedding
capability (none at all for empty input). -/
def embedCalls (texts : List String) : List (List String) :=
  if texts.isEmpty then [] else toBatches100 texts

/-! ### Retrieval (vector_search.py) -/

/-- One retrieval hit as assembled by `vector_search`:
`{id, content, source_id, chunk_index, distance}`. -/
structure Hit where
  id : String
  content : String
  source_id : String
  chunk_index : Nat
  distance : Rat
deriving DecidableEq, Repr

/-- One entry of a notebook's vector collection: identifier, stored
document text, its `{source_id, chunk_index}` metadata and its
embedding vector. -/
structure VEntry where
  id : String
  document : String
  source_id : String
  chunk_index : Nat
  embedding : List Rat
deriving DecidableEq, Repr

/-- Comparison of collection entries by their query distance. -/
def distLE (a b : VEntry × Rat) : Prop := a.2 ≤ b.2

instance : DecidableRel distLE := fun a b => inferInstanceAs (Decidable (a.2 ≤ b.2))

/-- Model of `collection.query(query_embeddings=[qv], n_results=n)` of the
vector store: every entry paired with its distance to the query vector
under the collection's fixed metric `dist` (cosine distance for these
collections, chosen once at creation via `hnsw:space`), ranked by
ascending distance, truncated to the `n` nearest. -/
def collectionQuery (dist : List Rat → List Rat → Rat) (col : List VEntry)
    (qv : List Rat) (n : Nat) : List (VEntry × Rat) :=
  (List.insertionSort distLE (col.map (fun e => (e, dist qv e.embedding)))).take n

/-- vector_search.py `vector_search`: an empty collection short-circuits
to `[]` before any query; otherwise the collection is queried with
`n_results = min(top_k, collection.count())` and each ranked result is
re-packed as a `Hit` in the returned order.  `embedq` stands for
`embed_query`. -/
def vector_search (dist : List Rat → List Rat → Rat) (embedq : String → List Rat)
    (col : List VEntry) (query : String) (top_k : Nat) : List Hit :=
  if col.length = 0 then []
  else
    (collectionQuery dist col (embedq query) (min top_k col.length)).map
      (fun p => ⟨p.1.id, p.1.document, p.1.source_id, p.1.chunk_index, p.2⟩)

/-- Loop of `build_context`: `for i, hit in enumerate(hits, start=1)`,
collecting the rendered block string and the cited id of every hit. -/
def contextLoop : Nat → List Hit → List String × List String
  | _, [] => ([], [])
  | i, h :: t =>
    (("[" ++ toString i ++ "] " ++ h.content) :: (contextLoop (i + 1) t).1,
      h.id :: (contextLoop (i + 1) t).2)

/-- vector_search.py `build_context`, parametrised by the hits the index
returned for the query: zero hits yield `("", [])`, otherwise the blocks
are joined with blank lines and paired with the cited chunk ids. -/
def build_context (hits : List Hit) : String × List String :=
  if hits.isEmpty then ("", [])
  else (String.intercalate ("\n\n") (contextLoop 1 hits).1, (contextLoop 1 hits).2)

/-- Follows the spec's words (claim C5): hit number `i` (1-based) is
rendered as the block `"[i] <chunk text>"`, for i = 1..n in hit order. -/
def renderBlocks (i : Nat) : List Hit → List String
  | [] => []
  | h :: t => ("[" ++ toString i ++ "] " ++ h.content) :: renderBlocks (i + 1) t

/-! ### Collection addressing (notebook_store.py vs vector_search.py) -/

/-- notebook_store.py `_safe`: characters outside `[\w\-.]` are replaced
by an underscore. -/
def safeName (s : String) : String :=
  String.mk (s.data.map (fun c =>
    if c.isAlphanum || c = '_' || c = '-' || c = '.' then c else '_'))

/-- Address of a vector collection: the filesystem path of its
persistent client plus the collection name inside that client. -/
structure CollectionRef where
  path : List String
  name : String
deriving DecidableEq, Repr

/-- notebook_store.py `get_chroma_collection`, the collection ingestion
upserts into: client rooted at
`USERS_DIR/<safe username>/notebooks/<notebook_id>/chroma`, collection
named `"sources"`. -/
def ingest_collection_ref (usersDir : List String) (username notebook_id : String) :
    CollectionRef :=
  ⟨usersDir ++ [safeName username, "notebooks", notebook_id, "chroma"], "sources"⟩

/-- vector_search.py module-level client and `vector_search`'s
`get_or_create_collection`: client rooted at the global `CHROMA_DIR`,
collection named `"notebook_<notebook_id>"`. -/
def query_collection_ref (chromaDir : List String) (notebook_id : String) :
    CollectionRef :=
  ⟨chromaDir, "notebook_" ++ notebook_id⟩

/-! ### Summary input (pipeline.py step 7 and summary_service.py) -/

/-- Python string slicing `s[:n]` (by code points). -/
def strTake (s : String) (n : Nat) : String := String.mk (s.data.take n)

/-- Leading part of summary_service.py `SUMMARY_PROMPT`, before the
`text` slot. -/
def promptHead : String :=
  "Summarize the following document in 3-5 concise bullet points.\nFocus on the key ideas, findings, and important details.\n\nDocument:\n"

/-- Trailing part of summary_service.py `SUMMARY_PROMPT`, after the
`text` slot. -/
def promptTail : String := "\n\nSummary:"

/-- summary_service.py `generate_summary`: the prompt dispatched to
`generate_text`, with the given text capped at 4000 characters
(`text[:4000]`) in the prompt's document slot. -/
def generate_summary_prompt (text : String) : String :=
  promptHead ++ strTake text 4000 ++ promptTail

/-- pipeline.py step 7: `summary_text = " ".join(text.split()[:3000])`. -/
def pipeline_summary_input (text : String) : String :=
  String.intercalate (" ") ((wordsOf text).take 3000)

/-- The document text that actually reaches the external generation
capability inside the summary prompt: the pipeline's 3000-word cut,
further capped at 4000 characters by `generate_summary`. -/
def summary_submitted_text (text : String) : String :=
  strTake (pipeline_summary_input text) 4000

/-- Follows the spec's words (claim C9): the summary is generated from
exactly the first 3000 words of the extracted text. -/
def spec_summary_text (text : String) : String :=
  String.intercalate (" ") ((wordsOf text).take 3000)

/-- A text whose first 3000 words span more than 4000 characters: a
single word of 4100 characters. -/
def bigText : String := String.mk (List.replicate 4100 'a')

/-! ### Relational rows and vector records (crud.py, pipeline.py) -/

/-- One row of the `chunks` table (models.py `Chunk`): identifier, owning
source, text content, sequence index and optional page number.  The
table has no word-offset columns. -/
structure ChunkRow where
  id : String
  source_id : String
  content : String
  chunk_index : Nat
  page_number : Option Nat
deriving DecidableEq, Repr

/-- crud.py `create_chunks` list comprehension with the id default of
models.py applied in order: row `j` gets identifier `id_gen j`, the
draft's `content` and `chunk_index`, and `page_number = c.get("page_number")`,
which is absent from every chunker draft. -/
def create_chunksAux (id_gen : Nat → String) (sid : String) :
    Nat → List ChunkDraft → List ChunkRow
  | _, [] => []
  | j, d :: ds =>
    ⟨id_gen j, sid, d.content, d.chunk_index, none⟩ :: create_chunksAux id_gen sid (j + 1) ds

/-- crud.py `create_chunks` for a source `sid`, with `id_gen` the
sequence of fresh uuid defaults. -/
def create_chunks (id_gen : Nat → String) (sid : String) (drafts : List ChunkDraft) :
    List ChunkRow :=
  create_chunksAux id_gen sid 0 drafts

/-- One entry written by pipeline.py step 6's `collection.upsert`: chunk
id, embedding, document text and `{source_id, chunk_index}` metadata. -/
structure VectorRecord where
  id : String
  embedding : List Rat
  document : String
  meta_source_id : String
  meta_chunk_index : Nat
deriving DecidableEq, Repr

/-- The records of pipeline.py step 6: ids from the persisted rows,
embeddings and documents positionally from the embed step, metadata from
the rows. -/
def upsertRecords (sid : String) (rows : List ChunkRow) (vectors : List (List Rat))
    (docs : List String) : List VectorRecord :=
  (rows.zip (vectors.zip docs)).map (fun p => ⟨p.1.id, p.2.1, p.2.2, sid, p.1.chunk_index⟩)

/-! ### Ingestion pipeline (pipeline.py `ingest_file` with session.py `get_db`) -/

/-- The committed relational state of one source: its lifecycle status,
its stored summary and its chunk rows. -/
structure DbState where
  status : String
  summary : Option String
  chunk_rows : List ChunkRow
deriving DecidableEq, Repr

/-- The non-relational durable stores the pipeline writes outside the
database transaction: extracted-text files and the notebook's vector
collection.  These writes are never rolled back. -/
structure Store where
  extracted : List (String × String)
  vectors : List VectorRecord
deriving DecidableEq, Repr

/-- Outcomes of the external effects of one ingestion run:
`parse` = parse_document (with the raw-file copy feeding it),
`embed` = embed_texts, `id_gen` = the uuid defaults rows receive,
`chunk_insert` = the flush of `create_chunks`, `upsert` = the Chroma
upsert, `summarize` = generate_summary. -/
structure Oracles where
  parse : Except String String
  embed : List String → Except String (List (List Rat))
  id_gen : Nat → String
  chunk_insert : Except String Unit
  upsert : Except String Unit
  summarize : String → Except String String

/-- The `try:` block of pipeline.py `ingest_file`, acting on the session's
view `db` of the relational state and on the durable stores `fs`: set
status to processing, copy+parse, write the extracted text file, chunk,
embed, persist chunk rows, upsert vectors, summarize, then mark ready
with the summary.  The first raised exception stops the run and is
returned with the state reached so far. -/
def ingestBody (o : Oracles) (sid : String) (cs ov : Nat) (db : DbState) (fs : Store) :
    (DbState × Store) × Except String String :=
  match o.parse with
  | .error e => (({ db with status := "processing" }, fs), .error e)
  | .ok text =>
    match o.embed ((chunk_text text cs ov).map (fun c => c.content)) with
    | .error e =>
      (({ db with status := "processing" },
        { fs with extracted := fs.extracted ++ [(sid, text)] }), .error e)
    | .ok vectors =>
      match o.chunk_insert with
      | .error e =>
        (({ db with status := "processing" },
          { fs with extracted := fs.extracted ++ [(sid, text)] }), .error e)
      | .ok _ =>
        match o.upsert with
        | .error e =>
          (({ db with
              status := "processing"
              chunk_rows := db.chunk_rows ++ create_chunks o.id_gen sid (chunk_text text cs ov) },
            { fs with extracted := fs.extracted ++ [(sid, text)] }), .error e)
        | .ok _ =>
          match o.summarize (pipeline_summary_input text) with
          | .error e =>
            (({ db with
                status := "processing"
                chunk_rows := db.chunk_rows ++ create_chunks o.id_gen sid (chunk_text text cs ov) },
              { fs with
                extracted := fs.extracted ++ [(sid, text)]
                vectors := fs.vectors ++
                  upsertRecords sid (create_chunks o.id_gen sid (chunk_text text cs ov))
                    vectors ((chunk_text text cs ov).map (fun c => c.content)) }), .error e)
          | .ok summ =>
            (({ db with
                status := "ready"
                summary := some summ
                chunk_rows := db.chunk_rows ++ create_chunks o.id_gen sid (chunk_text text cs ov) },
              { fs with
                extracted := fs.extracted ++ [(sid, text)]
                vectors := fs.vectors ++
                  upsertRecords sid (create_chunks o.id_gen sid (chunk_text text cs ov))
                    vectors ((chunk_text text cs ov).map (fun c => c.content)) }), .ok summ)

/-- session.py `get_db` on an exception escaping the `with` body:
`db.rollback()` discards the session's uncommitted view and the
committed relational state stands. -/
def rollback (committed _session : DbState) : DbState := committed

/-- pipeline.py `ingest_file` under session.py `get_db`: the `try:` body
runs in one session; on normal completion `get_db` commits the session
view; on an exception the `except` handler flushes status `"failed"`
into the session and re-raises, whereupon `get_db` rolls the session
back — so the committed relational state is the pre-run state — while
the extracted-text and vector-store writes stay.  The same exception
escapes to the caller. -/
def ingest_file (o : Oracles) (sid : String) (cs ov : Nat) (db0 : DbState) (fs0 : Store) :
    DbState × Store × Except String Unit :=
  match ingestBody o sid cs ov db0 fs0 with
  | ((dbS, fsS), .ok _) => (dbS, fsS, .ok ())
  | ((dbS, fsS), .error e) => (rollback db0 { dbS with status := "failed" }, fsS, .error e)

/-- Concrete ingestion oracles whose summarize step raises `"boom"` after
every earlier step succeeded. -/
def demoOracles : Oracles where
  parse := .ok ("a b c")
  embed := fun l => .ok (l.map (fun _ => [(1 : Rat)]))
  id_gen := fun n => "chunk" ++ toString n
  chunk_insert := .ok ()
  upsert := .ok ()
  summarize := fun _ => .error ("boom")

/-- Committed relational state of a freshly submitted source. -/
def demoDb : DbState := { status := "pending", summary := none, chunk_rows := [] }

/-- Empty durable stores of a fresh notebook. -/
def demoFs : Store := { extracted := [], vectors := [] }

/-! ## Theorems -/

/-- Once the loop can no longer run (`start` has passed the end of the
word sequence), every iteration budget yields the empty chunk list. -/
theorem chunkAux_stop (ws : List String) (csize ov : Nat) (start idx : Nat)
    (h : ¬ start < ws.length) : ∀ fuel, chunkAux ws csize ov fuel start idx = [] := by
  intro fuel
  cases fuel with
  | zero => rfl
  | succ fuel => simp [chunkAux, h]

/-- The iteration budget of `chunkAux` is irrelevant as soon as it covers
the remaining word count: the loop result is budget-independent. -/
theorem chunkAux_fuel_free (ws : List String) (csize ov : Nat) :
    ∀ fuel₁ fuel₂ start idx, ws.length - start ≤ fuel₁ → ws.length - start ≤ fuel₂ →
      chunkAux ws csize ov fuel₁ start idx = chunkAux ws csize ov fuel₂ start idx := by
  intro fuel₁
  induction fuel₁ with
  | zero =>
    intro fuel₂ start idx h1 h2
    have hs : ¬ start < ws.length := by omega
    rw [chunkAux_stop ws csize ov start idx hs, chunkAux_stop ws csize ov start idx hs]
  | succ fuel₁ ih =>
    intro fuel₂ start idx h1 h2
    by_cases hlt : start < ws.length
    · cases fuel₂ with
      | zero => omega
      | succ fuel₂ =>
        by_cases hmin : min (start + csize) ws.length = ws.length
        · simp [chunkAux, hlt, hmin]
        · have hstep : 1 ≤ chunkStep csize ov := Nat.le_max_left _ _
          have hl₁ : chunkAux ws csize ov (fuel₁ + 1) start idx
              = ⟨String.intercalate (" ") ((ws.drop start).take (min (start + csize) ws.length - start)),
                  idx, start, min (start + csize) ws.length⟩ ::
                chunkAux ws csize ov fuel₁ (start + chunkStep csize ov) (idx + 1) := by
            simp [chunkAux, hlt, hmin]
          have hl₂ : chunkAux ws csize ov (fuel₂ + 1) start idx
              = ⟨String.intercalate (" ") ((ws.drop start).take (min (start + csize) ws.length - start)),
                  idx, start, min (start + csize) ws.length⟩ ::
                chunkAux ws csize ov fuel₂ (start + chunkStep csize ov) (idx + 1) := by
            simp [chunkAux, hlt, hmin]
          rw [hl₁, hl₂, ih fuel₂ (start + chunkStep csize ov) (idx + 1) (by omega) (by omega)]
    · rw [chunkAux_stop ws csize ov start idx hlt, chunkAux_stop ws csize ov start idx hlt]

/-- Characterisation of the chunker loop output: element `j` of the loop
started at `start` with first index `idx` has sequence index `idx + j`,
word range `[start + j·step, min (start + j·step + csize, len))`, its
start lies inside the word sequence, and every element followed by
another one has a full-size window that stops short of the end. -/
theorem chunkAux_getD (ws : List String) (csize ov : Nat) :
    ∀ fuel start idx, ws.length - start ≤ fuel → start < ws.length →
      ∀ j, j < (chunkAux ws csize ov fuel start idx).length →
        ((chunkAux ws csize ov fuel start idx).getD j ⟨"", 0, 0, 0⟩).chunk_index = idx + j ∧
        ((chunkAux ws csize ov fuel start idx).getD j ⟨"", 0, 0, 0⟩).word_start
          = start + j * chunkStep csize ov ∧
        ((chunkAux ws csize ov fuel start idx).getD j ⟨"", 0, 0, 0⟩).word_end
          = min (start + j * chunkStep csize ov + csize) ws.length ∧
        start + j * chunkStep csize ov < ws.length ∧
        (j + 1 < (chunkAux ws csize ov fuel start idx).length →
          start + j * chunkStep csize ov + csize < ws.length) := by
  intro fuel
  induction fuel with
  | zero => intro start idx h1 h2 j hj; omega
  | succ fuel ih =>
    intro start idx h1 h2 j hj
    have hstep : 1 ≤ chunkStep csize ov := Nat.le_max_left _ _
    by_cases hmin : min (start + csize) ws.length = ws.length
    · have hl : chunkAux ws csize ov (fuel + 1) start idx
          = [⟨String.intercalate (" ") ((ws.drop start).take (min (start + csize) ws.length - start)),
              idx, start, min (start + csize) ws.length⟩] := by
        simp [chunkAux, h2, hmin]
      rw [hl] at hj ⊢
      simp only [List.length_cons, List.length_nil] at hj ⊢
      have hj0 : j = 0 := by omega
      subst hj0
      simp only [List.getD_cons_zero]
      exact ⟨by omega, by simp, by simp, by simpa using h2, fun hcon => by omega⟩
    · have hl : chunkAux ws csize ov (fuel + 1) start idx
          = ⟨String.intercalate (" ") ((ws.drop start).take (min (start + csize) ws.length - start)),
              idx, start, min (start + csize) ws.length⟩ ::
            chunkAux ws csize ov fuel (start + chunkStep csize ov) (idx + 1) := by
        simp [chunkAux, h2, hmin]
      have hcs : start + csize < ws.length := by omega
      rw [hl] at hj ⊢
      cases j with
      | zero =>
        simp only [List.getD_cons_zero]
        exact ⟨by omega, by simp, by simp, by simpa using h2, fun _ => by simpa using hcs⟩
      | succ k =>
        simp only [List.getD_cons_succ, List.length_cons] at hj ⊢
        have hk : k < (chunkAux ws csize ov fuel (start + chunkStep csize ov) (idx + 1)).length := by
          omega
        have hs2 : start + chunkStep csize ov < ws.length := by
          by_contra hcon
          rw [chunkAux_stop ws csize ov _ _ hcon] at hk
          simp at hk
        obtain ⟨e1, e2, e3, e4, e5⟩ :=
          ih (start + chunkStep csize ov) (idx + 1) (by omega) hs2 k hk
        refine ⟨?_, ?_, ?_, ?_, ?_⟩
        · rw [e1]; omega
        · rw [e2, Nat.succ_mul]; omega
        · rw [e3, Nat.succ_mul]; omega
        · rw [Nat.succ_mul]; omega
        · intro hcon
          have := e5 (by omega)
          rw [Nat.succ_mul]
          omega

/-- Characterisation of `chunk_text` output for a text with at least one
word: element `j` has sequence index `j` and the advertised word range. -/
theorem chunk_text_getD (text : String) (csize ov j : Nat)
    (hne : wordsOf text ≠ [])
    (hj : j < (chunk_text text csize ov).length) :
    ((chunk_text text csize ov).getD j ⟨"", 0, 0, 0⟩).chunk_index = j ∧
    ((chunk_text text csize ov).getD j ⟨"", 0, 0, 0⟩).word_start = j * chunkStep csize ov ∧
    ((chunk_text text csize ov).getD j ⟨"", 0, 0, 0⟩).word_end
      = min (j * chunkStep csize ov + csize) (wordsOf text).length ∧
    j * chunkStep csize ov < (wordsOf text).length ∧
    (j + 1 < (chunk_text text csize ov).length →
      j * chunkStep csize ov + csize < (wordsOf text).length) := by
  have hemp : (wordsOf text).isEmpty = false := by
    cases h : wordsOf text with
    | nil => exact absurd h hne
    | cons a t => rfl
  have hct : chunk_text text csize ov
      = chunkAux (wordsOf text) csize ov (wordsOf text).length 0 0 := by
    simp [chunk_text, hemp]
  have h0 : 0 < (wordsOf text).length := by
    cases h : wordsOf text with
    | nil => exact absurd h hne
    | cons a t => simp [h]
  rw [hct] at hj ⊢
  obtain ⟨e1, e2, e3, e4, e5⟩ :=
    chunkAux_getD (wordsOf text) csize ov (wordsOf text).length 0 0 (by omega) h0 j hj
  refine ⟨by rw [e1]; omega, by rw [e2]; omega, by rw [e3]; omega, by omega, fun h => by
    have := e5 h; omega⟩

/-- The last `ov` elements of a full-size window equal the `ov` elements
found `csize - ov` positions after the window start. -/
theorem slice_overlap (ws : List String) (s csize ov : Nat) (hov : ov ≤ csize)
    (hlen : s + csize ≤ ws.length) :
    lastWords ov ((ws.drop s).take csize) = (ws.drop (s + (csize - ov))).take ov := by
  unfold lastWords
  have h1 : ((ws.drop s).take csize).length = csize := by
    simp only [List.length_take, List.length_drop]
    omega
  rw [h1, List.drop_take, List.drop_drop]
  have h2 : csize - (csize - ov) = ov := by omega
  rw [h2]

/-- A prefix of a window is the same prefix of the suffix the window was
cut from, as long as the window is long enough. -/
theorem slice_take (ws : List String) (s n ov : Nat) (hov : ov ≤ n) :
    ((ws.drop s).take n).take ov = (ws.drop s).take ov := by
  rw [List.take_take]
  have : min ov n = ov := by omega
  rw [this]

set_option maxRecDepth 100000 in
/-- C3: for a text of exactly 1200 whitespace-delimited words,
`chunk_text` with `chunk_size = 512` and `overlap = 64` returns exactly 3
chunks, with sequence indices 0, 1, 2 and word ranges `[0, 512)`,
`[448, 960)` and `[896, 1200)`. -/
theorem chunk_reference_scenario :
    (wordsOf refText1200).length = 1200 ∧
    (chunk_text refText1200 512 64).map (fun c => (c.chunk_index, c.word_start, c.word_end))
      = [(0, 0, 512), (1, 448, 960), (2, 896, 1200)] := by
  constructor
  · decide
  · decide

/-- C10: for every text, every `chunk_size ≥ 1` and every overlap —
including `overlap ≥ chunk_size` — `chunk_text` is total (it is a Lean
function) and every chunk it returns has a non-empty word range. -/
theorem chunk_text_ranges_nonempty (text : String) (csize ov : Nat) (hcs : 1 ≤ csize) :
    ∀ c ∈ chunk_text text csize ov, c.word_start < c.word_end := by
  intro c hc
  have hne : wordsOf text ≠ [] := by
    intro hnil
    simp [chunk_text, hnil] at hc
  obtain ⟨⟨j, hj⟩, rfl⟩ := List.mem_iff_get.mp hc
  obtain ⟨e1, e2, e3, e4, e5⟩ := chunk_text_getD text csize ov j hne hj
  have hget : (chunk_text text csize ov).get ⟨j, hj⟩
      = (chunk_text text csize ov).getD j ⟨"", 0, 0, 0⟩ := by
    rw [List.getD_eq_getElem _ _ hj]
    rfl
  rw [hget, e2, e3]
  omega

/-- Witness for C10 at `chunk_size = 1`, `overlap = 5` (an overlap larger
than the chunk size) on a two-word text. -/
theorem chunk_text_ranges_nonempty_witness :
    1 ≤ 1 ∧ ∀ c ∈ chunk_text ("x y") 1 5, c.word_start < c.word_end :=
  ⟨by decide, chunk_text_ranges_nonempty ("x y") 1 5 (by decide)⟩

/-- C4 counterexample: with `chunk_size = 2` and `overlap = 2` on the
four-word text `"a b c d"`, chunks 0 and 1 are consecutive, chunk 1's
range has at least 2 words, yet the last 2 words of chunk 0's range
(`["a", "b"]`) differ from the first 2 words of chunk 1's range
(`["b", "c"]`): the claim fails when `overlap ≥ chunk_size`. -/
theorem chunk_overlap_counterexample :
    2 < (wordsOf ("a b c d")).length ∧
    1 + 1 < (chunk_text ("a b c d") 2 2).length ∧
    2 ≤ ((chunk_text ("a b c d") 2 2).getD 1 ⟨"", 0, 0, 0⟩).word_end
        - ((chunk_text ("a b c d") 2 2).getD 1 ⟨"", 0, 0, 0⟩).word_start ∧
    lastWords 2 (rangeWords (wordsOf ("a b c d")) ((chunk_text ("a b c d") 2 2).getD 0 ⟨"", 0, 0, 0⟩))
      ≠ (rangeWords (wordsOf ("a b c d")) ((chunk_text ("a b c d") 2 2).getD 1 ⟨"", 0, 0, 0⟩)).take 2 := by
  refine ⟨by decide, by decide, by decide, by decide⟩

/-- C4 (amended with `overlap < chunk_size`): for every text whose word
count exceeds `chunk_size` and every pair of consecutive chunks `j`,
`j + 1` of `chunk_text text chunk_size overlap`, the last `overlap` words
of chunk `j`'s word range equal the first `overlap` words of chunk
`j + 1`'s word range, whenever chunk `j + 1`'s range has at least
`overlap` words. -/
theorem chunk_text_overlap_invariant (text : String) (csize ov j : Nat)
    (hov : ov < csize)
    (hcount : csize < (wordsOf text).length)
    (hj : j + 1 < (chunk_text text csize ov).length)
    (hlen : ov ≤ ((chunk_text text csize ov).getD (j + 1) ⟨"", 0, 0, 0⟩).word_end
        - ((chunk_text text csize ov).getD (j + 1) ⟨"", 0, 0, 0⟩).word_start) :
    lastWords ov (rangeWords (wordsOf text) ((chunk_text text csize ov).getD j ⟨"", 0, 0, 0⟩))
      = (rangeWords (wordsOf text) ((chunk_text text csize ov).getD (j + 1) ⟨"", 0, 0, 0⟩)).take ov := by
  have hne : wordsOf text ≠ [] := by
    intro hnil
    rw [hnil] at hcount
    simp at hcount
  obtain ⟨i1, i2, i3, i4, i5⟩ := chunk_text_getD text csize ov j hne (by omega)
  obtain ⟨g1, g2, g3, g4, g5⟩ := chunk_text_getD text csize ov (j + 1) hne hj
  have hstep : chunkStep csize ov = csize - ov := by
    unfold chunkStep
    omega
  have hj_end : j * chunkStep csize ov + csize < (wordsOf text).length := i5 hj
  rw [g2, g3] at hlen
  unfold rangeWords
  rw [i2, i3, g2, g3]
  have e1 : min (j * chunkStep csize ov + csize) (wordsOf text).length
      - j * chunkStep csize ov = csize := by omega
  rw [e1]
  rw [slice_overlap (wordsOf text) (j * chunkStep csize ov) csize ov (by omega) (by omega)]
  rw [slice_take (wordsOf text) ((j + 1) * chunkStep csize ov)
    (min ((j + 1) * chunkStep csize ov + csize) (wordsOf text).length
      - (j + 1) * chunkStep csize ov) ov (by omega)]
  have e2 : j * chunkStep csize ov + (csize - ov) = (j + 1) * chunkStep csize ov := by
    rw [Nat.succ_mul, hstep]
  rw [e2]

/-- Witness for C4 (amended) on the five-word text `"a b c d e"` with
`chunk_size = 3`, `overlap = 1`, applied to the chunk pair 0, 1. -/
theorem chunk_text_overlap_invariant_witness :
    1 < 3 ∧ 3 < (wordsOf ("a b c d e")).length ∧
    0 + 1 < (chunk_text ("a b c d e") 3 1).length ∧
    1 ≤ ((chunk_text ("a b c d e") 3 1).getD (0 + 1) ⟨"", 0, 0, 0⟩).word_end
        - ((chunk_text ("a b c d e") 3 1).getD (0 + 1) ⟨"", 0, 0, 0⟩).word_start ∧
    lastWords 1 (rangeWords (wordsOf ("a b c d e")) ((chunk_text ("a b c d e") 3 1).getD 0 ⟨"", 0, 0, 0⟩))
      = (rangeWords (wordsOf ("a b c d e")) ((chunk_text ("a b c d e") 3 1).getD (0 + 1) ⟨"", 0, 0, 0⟩)).take 1 :=
  ⟨by decide, by decide, by decide, by decide,
    chunk_text_overlap_invariant ("a b c d e") 3 1 0 (by decide) (by decide) (by decide) (by decide)⟩

/-- C5: `build_context` returns `("", [])` when the index returned zero
hits; otherwise it renders the hits in the order the index returned them
as the blocks `"[i] <chunk text>"` for i = 1..n joined by blank lines,
paired with the hits' chunk identifiers in exactly that order. -/
theorem build_context_contract (hits : List Hit) (hne : hits ≠ []) :
    build_context ([] : List Hit) = ("", []) ∧
    build_context hits
      = (String.intercalate ("\n\n") (renderBlocks 1 hits), hits.map (fun h => h.id)) := by
  constructor
  · rfl
  · have hloop : ∀ (k : Nat) (l : List Hit),
        contextLoop k l = (renderBlocks k l, l.map (fun h => h.id)) := by
      intro k l
      induction l generalizing k with
      | nil => rfl
      | cons h t ih => simp [contextLoop, renderBlocks, ih]
    have hemp : hits.isEmpty = false := by
      cases hits with
      | nil => exact absurd rfl hne
      | cons a t => rfl
    simp [build_context, hemp, hloop]

/-- Witness for C5 with the two-hit scenario of the spec: the rendered
context lists block `[1]` for the first hit before block `[2]` for the
second, and the cited ids come back in the same order. -/
theorem build_context_contract_witness :
    ([⟨"idX", "textX", "s1", 0, 0⟩, ⟨"idY", "textY", "s1", 1, 0⟩] : List Hit) ≠ [] ∧
    (build_context ([] : List Hit) = ("", []) ∧
      build_context [⟨"idX", "textX", "s1", 0, 0⟩, ⟨"idY", "textY", "s1", 1, 0⟩]
        = (String.intercalate ("\n\n")
            (renderBlocks 1 [⟨"idX", "textX", "s1", 0, 0⟩, ⟨"idY", "textY", "s1", 1, 0⟩]),
          ([⟨"idX", "textX", "s1", 0, 0⟩, ⟨"idY", "textY", "s1", 1, 0⟩] : List Hit).map
            (fun h => h.id))) ∧
    build_context [⟨"idX", "textX", "s1", 0, 0⟩, ⟨"idY", "textY", "s1", 1, 0⟩]
      = ("[1] textX\n\n[2] textY", ["idX", "idY"]) :=
  ⟨by decide, build_context_contract _ (by decide), by decide⟩

/-- C6: `vector_search` returns at most `min(top_k, collection_size)`
hits, in ascending order of the collection's fixed distance metric, and
a query against an empty collection returns `[]` without any error. -/
theorem vector_search_spec (dist : List Rat → List Rat → Rat) (embedq : String → List Rat)
    (col : List VEntry) (q : String) (k : Nat) :
    (vector_search dist embedq col q k).length ≤ min k col.length ∧
    List.Pairwise (fun h1 h2 : Hit => h1.distance ≤ h2.distance)
      (vector_search dist embedq col q k) ∧
    vector_search dist embedq ([] : List VEntry) q k = [] := by
  refine ⟨?_, ?_, rfl⟩
  · by_cases hcol : col.length = 0
    · simp [vector_search, hcol]
    · simp only [vector_search, hcol, if_false]
      rw [List.length_map]
      unfold collectionQuery
      exact List.length_take_le _ _
  · by_cases hcol : col.length = 0
    · simp [vector_search, hcol]
    · simp only [vector_search, hcol, if_false]
      have hsorted : List.Sorted distLE
          (List.insertionSort distLE (col.map (fun e => (e, dist (embedq q) e.embedding)))) := by
        haveI : IsTotal (VEntry × Rat) distLE := ⟨fun a b => le_total a.2 b.2⟩
        haveI : IsTrans (VEntry × Rat) distLE := ⟨fun a b c h1 h2 => le_trans h1 h2⟩
        exact List.sorted_insertionSort distLE _
      have htake : (collectionQuery dist col (embedq q) (min k col.length)).Pairwise distLE := by
        unfold collectionQuery
        exact List.Pairwise.sublist (List.take_sublist _ _) hsorted
      exact List.pairwise_map.mpr (htake.imp (fun h => h))

/-- Order-preserving concatenation of the batch loop: mapping an
element-wise function over every batch and flattening gives the map over
the original input. -/
theorem toBatchesAux_flatten {V : Type} (f : String → V) :
    ∀ fuel l, l.length ≤ fuel →
      ((toBatchesAux fuel l).map (fun b => b.map f)).flatten = l.map f := by
  intro fuel
  induction fuel with
  | zero =>
    intro l h
    have : l = [] := List.eq_nil_of_length_eq_zero (by omega)
    subst this
    rfl
  | succ fuel ih =>
    intro l h
    cases l with
    | nil => rfl
    | cons x xs =>
      simp only [toBatchesAux, List.map_cons, List.flatten_cons]
      rw [ih ((x :: xs).drop 100) (by simp only [List.length_drop]; omega)]
      rw [List.map_take, List.map_drop, List.take_append_drop]
      rfl

/-- Every batch produced by the batch loop is non-empty and holds at most
100 texts. -/
theorem toBatchesAux_mem :
    ∀ fuel (l : List String), ∀ b ∈ toBatchesAux fuel l, b ≠ [] ∧ b.length ≤ 100 := by
  intro fuel
  induction fuel with
  | zero => intro l b hb; simp [toBatchesAux] at hb
  | succ fuel ih =>
    intro l b hb
    cases l with
    | nil => simp [toBatchesAux] at hb
    | cons x xs =>
      simp only [toBatchesAux] at hb
      rcases List.mem_cons.mp hb with rfl | hb
      · refine ⟨?_, List.length_take_le _ _⟩
        intro hcon
        have := congrArg List.length hcon
        simp only [List.length_take, List.length_cons, List.length_nil] at this
        omega
      · exact ih _ b hb

/-- C7: `embed_texts` is one-to-one and order-preserving with its input —
whenever the external capability embeds each batch element-wise (as a map
of an embedding function), the result is precisely that map over the
whole input —, every external call receives a non-empty batch of at most
100 texts, and the empty input returns `[]` while issuing no external
call at all. -/
theorem embed_texts_spec {V : Type} (api : List String → List V) (f : String → V)
    (texts : List String) (hapi : ∀ b, api b = b.map f) :
    embed_texts api texts = texts.map f ∧
    (∀ b ∈ embedCalls texts, b ≠ [] ∧ b.length ≤ 100) ∧
    embed_texts api ([] : List String) = [] ∧
    embedCalls ([] : List String) = [] := by
  refine ⟨?_, ?_, rfl, rfl⟩
  · cases texts with
    | nil => rfl
    | cons x xs =>
      have hmap : (toBatches100 (x :: xs)).map api
          = (toBatches100 (x :: xs)).map (fun b => b.map f) :=
        List.map_congr_left (fun b _ => hapi b)
      simp only [embed_texts, List.isEmpty_cons, if_false, Bool.false_eq_true]
      rw [hmap]
      exact toBatchesAux_flatten f _ _ (le_refl _)
  · intro b hb
    cases texts with
    | nil => simp [embedCalls] at hb
    | cons x xs =>
      simp only [embedCalls, List.isEmpty_cons, if_false, Bool.false_eq_true] at hb
      exact toBatchesAux_mem _ _ b hb

/-- Witness for C7 on a concrete three-text input with an element-wise
external embedding capability. -/
theorem embed_texts_spec_witness :
    (∀ b : List String, (fun l : List String => l.map (fun s => s.length)) b
      = b.map (fun s => s.length)) ∧
    (embed_texts (fun l : List String => l.map (fun s => s.length)) ["aa", "b", "ccc"]
        = (["aa", "b", "ccc"] : List String).map (fun s => s.length) ∧
      (∀ b ∈ embedCalls ["aa", "b", "ccc"], b ≠ [] ∧ b.length ≤ 100) ∧
      embed_texts (fun l : List String => l.map (fun s => s.length)) ([] : List String) = [] ∧
      embedCalls ([] : List String) = []) :=
  ⟨fun _ => rfl,
    embed_texts_spec (fun l : List String => l.map (fun s => s.length))
      (fun s => s.length) ["aa", "b", "ccc"] (fun _ => rfl)⟩

/-- Lengths are preserved by the `create_chunks` row construction. -/
theorem create_chunksAux_length (id_gen : Nat → String) (sid : String) :
    ∀ (drafts : List ChunkDraft) (k : Nat),
      (create_chunksAux id_gen sid k drafts).length = drafts.length := by
  intro drafts
  induction drafts with
  | nil => intro k; rfl
  | cons d ds ih => intro k; simp [create_chunksAux, ih]

/-- Row `j` persisted by `create_chunks` carries the id `id_gen (k + j)`,
the owning source, and the draft's content and sequence index — and
nothing of the draft's word offsets. -/
theorem create_chunksAux_getD (id_gen : Nat → String) (sid : String) :
    ∀ (drafts : List ChunkDraft) (k j : Nat), j < drafts.length →
      (create_chunksAux id_gen sid k drafts).getD j ⟨"", "", "", 0, none⟩
        = ⟨id_gen (k + j), sid, (drafts.getD j ⟨"", 0, 0, 0⟩).content,
            (drafts.getD j ⟨"", 0, 0, 0⟩).chunk_index, none⟩ := by
  intro drafts
  induction drafts with
  | nil => intro k j hj; simp at hj
  | cons d ds ih =>
    intro k j hj
    cases j with
    | zero => simp [create_chunksAux]
    | succ j =>
      simp only [create_chunksAux, List.getD_cons_succ]
      rw [ih (k + 1) j (by simpa using hj)]
      have : k + 1 + j = k + (j + 1) := by omega
      rw [this]

/-- The ids of the records handed to the vector upsert are exactly the
ids of the persisted rows, in order, when the vector and document lists
cover the rows. -/
theorem upsertRecords_ids (sid : String) :
    ∀ (rows : List ChunkRow) (vectors : List (List Rat)) (docs : List String),
      rows.length ≤ vectors.length → rows.length ≤ docs.length →
      (upsertRecords sid rows vectors docs).map (fun r => r.id)
        = rows.map (fun r => r.id) := by
  intro rows
  induction rows with
  | nil => intro vectors docs h1 h2; rfl
  | cons r rs ih =>
    intro vectors docs h1 h2
    cases vectors with
    | nil => simp at h1
    | cons v vs =>
      cases docs with
      | nil => simp at h2
      | cons d ds =>
        simp only [upsertRecords, List.zip_cons_cons, List.map_cons, List.cons.injEq]
        refine ⟨trivial, ?_⟩
        have := ih vs ds (by simpa using h1) (by simpa using h2)
        simpa [upsertRecords] using this

/-- C8 counterexample: the persisted chunk row does not include the word
offsets — two chunker drafts that differ only in their word range
persist as identical rows, although step 4's input distinguishes them. -/
theorem chunk_offsets_not_persisted :
    (⟨"t", 0, 0, 5⟩ : ChunkDraft) ≠ ⟨"t", 0, 1, 6⟩ ∧
    create_chunks (fun n => "id" ++ toString n) ("src") [⟨"t", 0, 0, 5⟩]
      = create_chunks (fun n => "id" ++ toString n) ("src") [⟨"t", 0, 1, 6⟩] := by
  refine ⟨by decide, by decide⟩

/-- C8 (amended): for every chunk produced by the chunker, step 4
persists the chunk's identifier, sequence index and text content (but
not its word offsets, which the chunks table does not store), and the
vector upsert of step 5 uses exactly the assigned row identifiers, in
order. -/
theorem create_chunks_persists (id_gen : Nat → String) (sid : String)
    (drafts : List ChunkDraft) (vectors : List (List Rat)) (j : Nat)
    (hv : vectors.length = drafts.length)
    (hj : j < drafts.length) :
    (create_chunks id_gen sid drafts).length = drafts.length ∧
    ((create_chunks id_gen sid drafts).getD j ⟨"", "", "", 0, none⟩).id = id_gen j ∧
    ((create_chunks id_gen sid drafts).getD j ⟨"", "", "", 0, none⟩).source_id = sid ∧
    ((create_chunks id_gen sid drafts).getD j ⟨"", "", "", 0, none⟩).content
      = (drafts.getD j ⟨"", 0, 0, 0⟩).content ∧
    ((create_chunks id_gen sid drafts).getD j ⟨"", "", "", 0, none⟩).chunk_index
      = (drafts.getD j ⟨"", 0, 0, 0⟩).chunk_index ∧
    (upsertRecords sid (create_chunks id_gen sid drafts) vectors
        (drafts.map (fun c => c.content))).map (fun r => r.id)
      = (create_chunks id_gen sid drafts).map (fun r => r.id) := by
  have hlen : (create_chunks id_gen sid drafts).length = drafts.length :=
    create_chunksAux_length id_gen sid drafts 0
  have hrow := create_chunksAux_getD id_gen sid drafts 0 j hj
  refine ⟨hlen, ?_, ?_, ?_, ?_, ?_⟩
  · rw [create_chunks, hrow]
    simp
  · rw [create_chunks, hrow]
  · rw [create_chunks, hrow]
  · rw [create_chunks, hrow]
  · exact upsertRecords_ids sid _ vectors _ (by omega) (by simp [List.length_map]; omega)

/-- Witness for C8 (amended) on the chunks of `"a b c"` with
`chunk_size = 2`, `overlap = 1`, two embedding vectors and row index 1. -/
theorem create_chunks_persists_witness :
    ([[(1 : Rat)], [(2 : Rat)]] : List (List Rat)).length
        = (chunk_text ("a b c") 2 1).length ∧
    1 < (chunk_text ("a b c") 2 1).length ∧
    ((create_chunks (fun n => "id" ++ toString n) ("src") (chunk_text ("a b c") 2 1)).length
        = (chunk_text ("a b c") 2 1).length ∧
      ((create_chunks (fun n => "id" ++ toString n) ("src") (chunk_text ("a b c") 2 1)).getD 1
          ⟨"", "", "", 0, none⟩).id = (fun n => "id" ++ toString n) 1 ∧
      ((create_chunks (fun n => "id" ++ toString n) ("src") (chunk_text ("a b c") 2 1)).getD 1
          ⟨"", "", "", 0, none⟩).source_id = "src" ∧
      ((create_chunks (fun n => "id" ++ toString n) ("src") (chunk_text ("a b c") 2 1)).getD 1
          ⟨"", "", "", 0, none⟩).content
        = ((chunk_text ("a b c") 2 1).getD 1 ⟨"", 0, 0, 0⟩).content ∧
      ((create_chunks (fun n => "id" ++ toString n) ("src") (chunk_text ("a b c") 2 1)).getD 1
          ⟨"", "", "", 0, none⟩).chunk_index
        = ((chunk_text ("a b c") 2 1).getD 1 ⟨"", 0, 0, 0⟩).chunk_index ∧
      (upsertRecords ("src")
          (create_chunks (fun n => "id" ++ toString n) ("src") (chunk_text ("a b c") 2 1))
          [[(1 : Rat)], [(2 : Rat)]]
          ((chunk_text ("a b c") 2 1).map (fun c => c.content))).map (fun r => r.id)
        = (create_chunks (fun n => "id" ++ toString n) ("src")
            (chunk_text ("a b c") 2 1)).map (fun r => r.id)) :=
  ⟨by decide, by decide,
    create_chunks_persists (fun n => "id" ++ toString n) ("src") (chunk_text ("a b c") 2 1)
      [[(1 : Rat)], [(2 : Rat)]] 1 (by decide) (by decide)⟩

/-- Splitting a whitespace-free character sequence yields the single word
made of the pending accumulator followed by the whole sequence. -/
theorem splitWordsAux_no_ws :
    ∀ (l acc : List Char), (∀ c ∈ l, c.isWhitespace = false) → (acc ≠ [] ∨ l ≠ []) →
      splitWordsAux l acc = [String.mk (acc.reverse ++ l)] := by
  intro l
  induction l with
  | nil =>
    intro acc _ hne
    cases acc with
    | nil =>
      rcases hne with h | h
      · exact absurd rfl h
      · exact absurd rfl h
    | cons a as => simp [splitWordsAux]
  | cons c cs ih =>
    intro acc h hne
    have hc : c.isWhitespace = false := h c (by simp)
    simp only [splitWordsAux, hc, Bool.false_eq_true, if_false]
    rw [ih (c :: acc) (fun x hx => h x (by simp [hx])) (Or.inl (by simp))]
    simp

/-- A non-empty string without whitespace splits into itself as its only
word. -/
theorem wordsOf_single (l : List Char) (hne : l ≠ [])
    (h : ∀ c ∈ l, c.isWhitespace = false) :
    wordsOf (String.mk l) = [String.mk l] := by
  unfold wordsOf
  have : (String.mk l).data = l := rfl
  rw [this, splitWordsAux_no_ws l [] h (Or.inr hne)]
  simp

/-- C9 counterexample: for a text that is a single 4100-character word,
the pipeline's 3000-word cut is the whole text, but the document text
actually submitted inside the summary prompt is `text[:4000]`, losing
the final 100 characters — it is not the first 3000 words. -/
theorem summary_truncation_counterexample :
    summary_submitted_text bigText ≠ spec_summary_text bigText := by
  have hwords : wordsOf bigText = [bigText] := by
    unfold bigText
    refine wordsOf_single _ (List.ne_nil_of_length_pos (by rw [List.length_replicate]; omega)) ?_
    intro c hc
    rw [List.eq_of_mem_replicate hc]
    rfl
  have hspec : spec_summary_text bigText = bigText := by
    unfold spec_summary_text
    rw [hwords]
    rfl
  have hsub : summary_submitted_text bigText = strTake bigText 4000 := by
    unfold summary_submitted_text pipeline_summary_input
    rw [hwords]
    rfl
  rw [hsub, hspec]
  intro h
  have hlen := congrArg String.length h
  have h1 : (strTake bigText 4000).length = 4000 := by
    show ((List.replicate 4100 'a').take 4000).length = 4000
    rw [List.length_take, List.length_replicate]
    omega
  have h2 : bigText.length = 4100 := by
    show (List.replicate 4100 'a').length = 4100
    rw [List.length_replicate]
  rw [h1, h2] at hlen
  omega

/-- C9 (amended): for every extracted text, the document text submitted
to the external generation capability for the per-source summary is the
first 3000 words of the extracted text further truncated to its first
4000 characters, and the dispatched prompt embeds precisely this text
between the fixed prompt parts; whenever those 3000 words span at most
4000 characters the submitted text is exactly the first 3000 words. -/
theorem summary_submitted_take (text : String) :
    summary_submitted_text text = strTake (spec_summary_text text) 4000 ∧
    generate_summary_prompt (pipeline_summary_input text)
      = promptHead ++ summary_submitted_text text ++ promptTail ∧
    ((spec_summary_text text).length ≤ 4000 →
      summary_submitted_text text = spec_summary_text text) := by
  refine ⟨rfl, rfl, ?_⟩
  intro hshort
  show String.mk ((pipeline_summary_input text).data.take 4000) = spec_summary_text text
  have hdata : (pipeline_summary_input text).data.length ≤ 4000 := hshort
  rw [List.take_of_length_le hdata]
  rfl

/-- Witness for C9 (amended), applied at the short text `"hello world"`
with its inner shortness hypothesis discharged by evaluation. -/
theorem summary_submitted_take_witness :
    (summary_submitted_text ("hello world")
        = strTake (spec_summary_text ("hello world")) 4000 ∧
      generate_summary_prompt (pipeline_summary_input ("hello world"))
        = promptHead ++ summary_submitted_text ("hello world") ++ promptTail ∧
      ((spec_summary_text ("hello world")).length ≤ 4000 →
        summary_submitted_text ("hello world") = spec_summary_text ("hello world"))) ∧
    summary_submitted_text ("hello world") = spec_summary_text ("hello world") :=
  ⟨summary_submitted_take ("hello world"),
    (summary_submitted_take ("hello world")).2.2 (by decide)⟩

/-- C1 (code bug): the collection pipeline.py upserts into (named
`"sources"`, rooted in the notebook's own chroma directory) and the
collection vector_search.py queries for the same notebook (named
`"notebook_<id>"`, rooted at a global directory) are never the same
collection, for any notebook and any client roots — so ingested chunks
are unreachable through retrieval; shown generally and at the concrete
notebook `("alice", "nb1")`. -/
theorem ingest_query_collection_mismatch :
    (∀ (usersDir chromaDir : List String) (username notebook_id : String),
      (ingest_collection_ref usersDir username notebook_id).name
        ≠ (query_collection_ref chromaDir notebook_id).name) ∧
    ingest_collection_ref ["data", "users"] ("alice") ("nb1")
      ≠ query_collection_ref ["data", "users"] ("nb1") := by
  constructor
  · intro u c un nb h
    simp only [ingest_collection_ref, query_collection_ref] at h
    have hlen := congrArg String.length h
    rw [String.length_append] at hlen
    have h7 : ("sources").length = 7 := rfl
    have h9 : ("notebook_").length = 9 := rfl
    omega
  · decide

/-- Witness instantiating the C1 mismatch at concrete client roots and a
concrete notebook identifier. -/
theorem ingest_query_collection_mismatch_witness :
    (ingest_collection_ref ["data", "users"] ("alice") ("nb1")).name
      ≠ (query_collection_ref ["chroma"] ("nb1")).name :=
  ingest_query_collection_mismatch.1 ["data", "users"] ["chroma"] ("alice") ("nb1")

/-- C2 (code bug): run the embedded pipeline on a source whose summarize
step raises `"boom"` after extraction, chunking, embedding, row insert
and vector upsert all succeeded.  The exception is re-raised unchanged
and the Chroma vectors and extracted text written before the failure
survive, but the `except`-handler's `"failed"` status update is flushed
inside the very transaction `get_db` then rolls back, so the committed
status stays `"pending"` — never `"failed"` — and the chunk rows are
rolled back as well. -/
theorem ingest_failure_status_rolled_back :
    ingest_file demoOracles ("src1") 2 0 demoDb demoFs
      = (demoDb,
         { extracted := [("src1", "a b c")]
           vectors := [⟨"chunk0", [1], "a b", "src1", 0⟩, ⟨"chunk1", [1], "c", "src1", 1⟩] },
         .error ("boom")) ∧
    (ingest_file demoOracles ("src1") 2 0 demoDb demoFs).1.status = "pending" ∧
    (ingest_file demoOracles ("src1") 2 0 demoDb demoFs).1.status ≠ "failed" ∧
    (ingest_file demoOracles ("src1") 2 0 demoDb demoFs).1.chunk_rows = [] ∧
    (ingest_file demoOracles ("src1") 2 0 demoDb demoFs).2.1.vectors ≠ [] ∧
    (ingest_file demoOracles ("src1") 2 0 demoDb demoFs).2.2 = .error ("boom") := by
  refine ⟨by decide, by decide, by decide, by decide, by decide, by decide⟩

end NB
